import Mathlib

/-!  Shallow embedding of the poker evaluation core of this repository
(`backend/hand_rank.py` together with the service methods of
`backend/server.py`).  Python machine behaviour that the source relies on is
embedded explicitly: exceptions become an error type, CPython's small-int
`set` iteration order is modelled by its open-addressing table, and Python
list/tuple comparison is modelled by an explicit lexicographic comparator. -/

/-- Python runtime errors raised by the embedded code. -/
inductive PyErr where
  | valueError
  | typeError
  | zeroDivisionError
  | indexError
deriving DecidableEq, Repr

/-- The string `..23456789TJQKA` used by `get_rank_value` and `parse_card`;
the two leading dot placeholders are genuinely part of the membership tests
in the source. -/
def ranksChars : List Char :=
  ['.', '.', '2', '3', '4', '5', '6', '7', '8', '9', 'T', 'J', 'Q', 'K', 'A']

/-- The suit characters `HSCD`. -/
def suitsChars : List Char := ['H', 'S', 'C', 'D']

/-- `get_rank_value(rank_char)`: `ranks.index(rank_char)` when the character
occurs in `..23456789TJQKA`, else `0`. -/
def get_rank_value (rank_char : Char) : Int :=
  if rank_char ∈ ranksChars then (ranksChars.indexOf rank_char : Int) else 0

/-- `parse_card(card_str)`: accepts a 2-character token, uppercases both
characters, and tries SuitRank then RankSuit; returns `(rank_value, suit_char)`
or raises `ValueError`. -/
def parse_card (card_str : String) : Except PyErr (Int × Char) :=
  match card_str.data with
  | [c1, c2] =>
    let first := c1.toUpper
    let second := c2.toUpper
    if first ∈ suitsChars ∧ second ∈ ranksChars then
      .ok (get_rank_value second, first)
    else if first ∈ ranksChars ∧ second ∈ suitsChars then
      .ok (get_rank_value first, second)
    else
      .error .valueError
  | _ => .error .valueError

/-- Equality of embedded Python results is decidable. -/
instance {e a : Type} [DecidableEq e] [DecidableEq a] : DecidableEq (Except e a) := fun x y =>
  match x, y with
  | .ok v, .ok w =>
    if h : v = w then isTrue (by rw [h]) else isFalse (by intro hc; injection hc; contradiction)
  | .error v, .error w =>
    if h : v = w then isTrue (by rw [h]) else isFalse (by intro hc; injection hc; contradiction)
  | .ok _, .error _ => isFalse (by intro hc; cases hc)
  | .error _, .ok _ => isFalse (by intro hc; cases hc)

/-- Python `sorted(l, reverse=True)` on integers. -/
def sortDesc (l : List Int) : List Int := l.insertionSort (fun a b => b ≤ a)

/-- Python `len(set(l)) == 1` for a list of suit characters. -/
def setSizeOne (l : List Char) : Bool :=
  match l with
  | [] => false
  | x :: xs => xs.all (· == x)

/-- `is_straight(ranks)`: five distinct ranks and either a rank span of 4 or
the wheel pattern `[14, 5, 4, 3, 2]` (the list is already sorted descending
by the caller). -/
def is_straight (ranks : List Int) : Bool :=
  if ranks.eraseDups.length ≠ 5 then false
  else (ranks.max?.getD 0 - ranks.min?.getD 0 == 4) || (ranks == [14, 5, 4, 3, 2])

/-!  CPython `set` model.  The source computes kicker lists as
`list(set(ranks) - set(grouped))`.  For the values that occur here (ints
0–14, at most 4 distinct elements) a CPython set is an 8-slot open-addressing
table with `hash(n) = n`, first probe `hash & 7`, and reprobe
`i = (i*5 + 1 + perturb) & 7` after `perturb >>= 5`; iteration walks the
slots in order.  `list(set(a) - set(b))` therefore is: iterate the table of
`set(a)`, keep the elements not in `b`, insert them into a fresh table, and
read that table out in slot order. -/

/-- One CPython set probe/insert step; `fuel` bounds the probe walk (the
probe sequence of an 8-slot table visits every slot, so 16 steps always
suffice for the at-most-4-element tables arising here). -/
def setInsertGo (table : List (Option Int)) (h : Int) :
    Nat → Nat → Nat → List (Option Int)
  | _, _, 0 => table
  | i, perturb, fuel + 1 =>
    match table.get? i with
    | none => table
    | some none => table.set i (some h)
    | some (some v) =>
      if v = h then table
      else
        let p := perturb >>> 5
        setInsertGo table h ((5 * i + 1 + p) % 8) p fuel

/-- Insert a small nonnegative int into an 8-slot CPython set table. -/
def setInsert (table : List (Option Int)) (h : Int) : List (Option Int) :=
  setInsertGo table h (h.toNat % 8) h.toNat 16

/-- Build the CPython set table of a list (insertion in list order). -/
def pySetOfList (l : List Int) : List (Option Int) :=
  l.foldl setInsert (List.replicate 8 none)

/-- Iterate a CPython set table in slot order. -/
def pySetElems (table : List (Option Int)) : List Int := table.filterMap id

/-- `list(set(a) - set(b))` under the CPython small-int set model. -/
def pySetDiffList (a b : List Int) : List Int :=
  pySetElems (pySetOfList ((pySetElems (pySetOfList a)).filter (fun x => ¬ x ∈ b)))

/-- The pure part of `hand_rank` once the hand is parsed: `ranks0` is the
unsorted rank list, `suits` the suit list (comprehension order). -/
def hand_rank_core (ranks0 : List Int) (suits : List Char) : Int × List Int :=
  let ranks := sortDesc ranks0
  if setSizeOne suits then
    if ranks = [14, 13, 12, 11, 10] then (9, ranks)
    else if is_straight ranks then (8, ranks)
    else (5, ranks)
  else
    let keys := ranks.eraseDups
    let quadOrBoat :=
      if keys.length = 2 then
        let four := keys.filter (fun r => ranks.count r = 4)
        let three := keys.filter (fun r => ranks.count r = 3)
        let two := keys.filter (fun r => ranks.count r = 2)
        if four ≠ [] then some (7, four ++ pySetDiffList ranks four)
        else if three ≠ [] ∧ two ≠ [] then some (6, three ++ two)
        else none
      else none
    match quadOrBoat with
    | some res => res
    | none =>
      if is_straight ranks then (4, ranks)
      else
        let three := keys.filter (fun r => ranks.count r = 3)
        let two := keys.filter (fun r => ranks.count r = 2)
        if three ≠ [] then (3, three ++ pySetDiffList ranks three)
        else if two.length = 2 then (2, sortDesc two ++ pySetDiffList ranks two)
        else if two.length = 1 then (1, two ++ pySetDiffList ranks two)
        else (0, ranks)

/-- `hand_rank(hand)`: parse every card (first parse failure raises), then
classify.  `counts = {r: ranks.count(r) for r in ranks}` iterates keys in
first-occurrence order of the descending rank list, which is
`ranks.eraseDups`; kicker lists use the CPython set-difference model. -/
def hand_rank (hand : List String) : Except PyErr (Int × List Int) := do
  let parsed ← hand.mapM parse_card
  pure (hand_rank_core (parsed.map Prod.fst) (parsed.map Prod.snd))

/-- Python list comparison on integer lists (lexicographic, a strict
proper-prefix compares lower). -/
def listCmp : List Int → List Int → Ordering
  | [], [] => .eq
  | [], _ :: _ => .lt
  | _ :: _, [] => .gt
  | a :: as', b :: bs =>
    if a < b then .lt
    else if b < a then .gt
    else listCmp as' bs

/-- Python tuple comparison on `hand_rank` results `(category, tiebreaks)`. -/
def rankCmp (r1 r2 : Int × List Int) : Ordering :=
  if r1.1 < r2.1 then .lt
  else if r2.1 < r1.1 then .gt
  else listCmp r1.2 r2.2

/-- `itertools.combinations(l, k)` in its generation order. -/
def combinations : Nat → List α → List (List α)
  | 0, _ => [[]]
  | _ + 1, [] => []
  | k + 1, x :: xs => (combinations k xs).map (x :: ·) ++ combinations (k + 1) xs

/-- The `rank_names` table of `best_hand`. -/
def rank_names : List String :=
  ["High Card", "Pair", "Two Pair", "Three of a Kind", "Straight",
   "Flush", "Full House", "Four of a Kind", "Straight Flush", "Royal Flush"]

/-- Python list indexing `l[i]` (negative indices count from the end;
out of range raises `IndexError`). -/
def pyListIndex (l : List α) (i : Int) : Except PyErr α :=
  let j := if i < 0 then i + l.length else i
  match l.get? j.toNat with
  | some x => if 0 ≤ j then .ok x else .error .indexError
  | none => .error .indexError

/-- The dictionary returned by `best_hand`. -/
structure BestHand where
  best_hand : List String
  rank_value : Int
  rank_name : String
  rank_tuple : Int × List Int
deriving DecidableEq, Repr

/-- One step of the `best_hand` maximum search. -/
def bestStep (acc : Option (List String) × (Int × List Int)) (combo : List String) :
    Except PyErr (Option (List String) × (Int × List Int)) := do
  let rank ← hand_rank combo
  if rankCmp rank acc.2 = .gt then pure (some combo, rank) else pure acc

/-- `best_hand(cards)`: scan all 5-card combinations keeping the maximal
`hand_rank` tuple (initial value `(-1, [])`); with fewer than 5 cards the
scan is empty and `list(current_best)` raises `TypeError` on `None` (the
dict literal evaluates `list(current_best)` before indexing `rank_names`). -/
def best_hand (cards : List String) : Except PyErr BestHand := do
  let acc ← (combinations 5 cards).foldlM bestStep (none, (-1, ([] : List Int)))
  match acc.1 with
  | none => .error .typeError
  | some best =>
    let name ← pyListIndex rank_names acc.2.1
    pure { best_hand := best, rank_value := acc.2.1, rank_name := name, rank_tuple := acc.2 }

/-- `compare_hands(hand1_cards, hand2_cards, community_cards)` of
`hand_rank.py`: first compares the two categories alone; on equal categories
it recomputes the full maximal `hand_rank` tuples of both pools and compares
those. -/
def compare_hands (hand1_cards hand2_cards community_cards : List String) :
    Except PyErr (Int × String) := do
  let best1 ← best_hand (hand1_cards ++ community_cards)
  let best2 ← best_hand (hand2_cards ++ community_cards)
  if best1.rank_value > best2.rank_value then pure (1, best1.rank_name)
  else if best2.rank_value > best1.rank_value then pure (2, best2.rank_name)
  else do
    let acc1 ← (combinations 5 (hand1_cards ++ community_cards)).foldlM
      (fun acc combo => do
        let r ← hand_rank combo
        if rankCmp r acc = .gt then pure r else pure acc) (-1, ([] : List Int))
    let acc2 ← (combinations 5 (hand2_cards ++ community_cards)).foldlM
      (fun acc combo => do
        let r ← hand_rank combo
        if rankCmp r acc = .gt then pure r else pure acc) (-1, ([] : List Int))
    if rankCmp acc1 acc2 = .gt then pure (1, best1.rank_name)
    else if rankCmp acc2 acc1 = .gt then pure (2, best2.rank_name)
    else pure (0, best1.rank_name)

/-- The deck ranks `23456789TJQKA` (no dot placeholders). -/
def deckRanks : List Char :=
  ['2', '3', '4', '5', '6', '7', '8', '9', 'T', 'J', 'Q', 'K', 'A']

/-- The 52 card tokens `s + r` for `s in 'HSCD'`, `r in '23456789TJQKA'`,
in generation order. -/
def full_deck : List String :=
  suitsChars.flatMap (fun s => deckRanks.map (fun r => String.mk [s, r]))

/-- The remaining deck of `calculate_probability`: the 52 tokens minus those
whose *string* occurs in `my_cards` or `community_cards`. -/
def buildDeck (my_cards community_cards : List String) : List String :=
  full_deck.filter (fun card => ¬ card ∈ my_cards ∧ ¬ card ∈ community_cards)

/-- Python slicing `l[start : stop]` (clamped; negative bounds count from the
end; never raises). -/
def pySlice (l : List α) (start stop : Int) : List α :=
  let n : Int := l.length
  let norm : Int → Int := fun x => if x < 0 then max 0 (n + x) else min x n
  ((l.drop (norm start).toNat).take ((norm stop) - (norm start)).toNat)

/-- Python indexing `deck[i]` for nonnegative `i` (raises `IndexError` when
out of range). -/
def pyGet (l : List String) (i : Nat) : Except PyErr String :=
  match l.get? i with
  | some x => .ok x
  | none => .error .indexError

/-- The opponent-dealing loop: each opponent takes `deck[idx], deck[idx+1]`
and the index advances by 2; returns the opponent hands in deal order and
the final index. -/
def dealOpponents (deck : List String) :
    Nat → Nat → Except PyErr (List (List String) × Nat)
  | 0, idx => .ok ([], idx)
  | n + 1, idx => do
    let c1 ← pyGet deck idx
    let c2 ← pyGet deck (idx + 1)
    let (rest, idx') ← dealOpponents deck n (idx + 2)
    .ok ([c1, c2] :: rest, idx')

/-- One step of the maximum-rank search loops: keep the larger of the
running maximum and the combination's `hand_rank` tuple. -/
def maxStep (acc : Int × List Int) (combo : List String) :
    Except PyErr (Int × List Int) := do
  let r ← hand_rank combo
  if rankCmp r acc = .gt then pure r else pure acc

/-- The maximum `hand_rank` tuple over a list of 5-card combinations,
starting from `(-1, [])` exactly as in the source loops. -/
def maxRankFold (combos : List (List String)) : Except PyErr (Int × List Int) :=
  combos.foldlM maxStep (-1, ([] : List Int))

/-- One simulation trial of `calculate_probability`, given the shuffled deck
order for this trial: deal the opponents, complete the community cards,
compute the player's and the best opponent's maximal rank tuples, and
return how the player's tuple compares. -/
def runTrial (my_cards community_cards : List String) (num_players : Int)
    (deck : List String) : Except PyErr Ordering := do
  let (opponents_cards, idx) ← dealOpponents deck (num_players - 1).toNat 0
  let needed_community : Int := 5 - community_cards.length
  let sim_community :=
    community_cards ++ pySlice deck (idx : Int) ((idx : Int) + needed_community)
  let my_rank ← maxRankFold (combinations 5 (my_cards ++ sim_community))
  let best_opp_rank ← opponents_cards.foldlM
    (fun acc opp_hand => do
      let opp_r ← maxRankFold (combinations 5 (opp_hand ++ sim_community))
      if rankCmp opp_r acc = .gt then pure opp_r else pure acc)
    (-1, ([] : List Int))
  pure (rankCmp my_rank best_opp_rank)

/-- The trial loop: trial `t` uses the shuffled deck `shuffles t`
(`random.shuffle` is modelled by this oracle of per-trial deck orders);
returns the `(wins, ties)` counters. -/
def runTrials (my_cards community_cards : List String) (num_players : Int)
    (shuffles : Nat → List String) : Nat → Except PyErr (Nat × Nat)
  | 0 => .ok (0, 0)
  | n + 1 => do
    let (wins, ties) ← runTrials my_cards community_cards num_players shuffles n
    match ← runTrial my_cards community_cards num_players (shuffles n) with
    | .gt => .ok (wins + 1, ties)
    | .eq => .ok (wins, ties + 1)
    | .lt => .ok (wins, ties)

/-- The result dictionary of `calculate_probability`, with the three Python
float divisions modelled over `ℚ`. -/
structure ProbResult where
  win : ℚ
  tie : ℚ
  lose : ℚ
deriving DecidableEq, Repr

/-- `calculate_probability(my_cards, community_cards, num_players,
num_simulations)`: runs `range(num_simulations)` trials (none when the count
is not positive) and divides the counters; dividing by a zero trial count
raises `ZeroDivisionError`. -/
def calculate_probability (my_cards community_cards : List String)
    (num_players : Int) (shuffles : Nat → List String) (num_simulations : Int) :
    Except PyErr ProbResult := do
  let (wins, ties) ←
    runTrials my_cards community_cards num_players shuffles num_simulations.toNat
  if num_simulations = 0 then .error .zeroDivisionError
  else
    .ok { win := (wins : ℚ) / (num_simulations : ℚ),
          tie := (ties : ℚ) / (num_simulations : ℚ),
          lose := ((num_simulations : ℚ) - (wins : ℚ) - (ties : ℚ)) / (num_simulations : ℚ) }

/-- Outcome of a service method: a normal response, the dedicated
invalid-argument rejection, or the generic internal-error path that catches
any Python exception. -/
inductive SvcOutcome (α : Type) where
  | ok (response : α)
  | invalidArgument (details : String)
  | internal (err : PyErr)
deriving DecidableEq, Repr

/-- `PokerService.EvaluateHand`: combines the two token lists, rejects fewer
than 5 cards with `INVALID_ARGUMENT`, otherwise calls `best_hand` and maps
any exception to `INTERNAL`. -/
def EvaluateHand (hole_cards community_cards : List String) : SvcOutcome BestHand :=
  let all_cards := hole_cards ++ community_cards
  if all_cards.length < 5 then
    .invalidArgument "Need at least 5 cards to evaluate a hand."
  else
    match best_hand all_cards with
    | .ok result => .ok result
    | .error e => .internal e

/-- The `CompareResponse` payload. -/
structure CompareRes where
  winner : Int
  winning_hand_name : String
deriving DecidableEq, Repr

/-- `PokerService.CompareHands`: computes `best_hand` of each pool (hole
cards plus that pool's own community cards) and compares the full
`rank_tuple`s; any exception maps to `INTERNAL`. -/
def CompareHands (h1_cards h1_comm h2_cards h2_comm : List String) :
    SvcOutcome CompareRes :=
  match (do
    let best1 ← best_hand (h1_cards ++ h1_comm)
    let best2 ← best_hand (h2_cards ++ h2_comm)
    if rankCmp best1.rank_tuple best2.rank_tuple = .gt then
      pure (⟨1, best1.rank_name⟩ : CompareRes)
    else if rankCmp best2.rank_tuple best1.rank_tuple = .gt then
      pure (⟨2, best2.rank_name⟩ : CompareRes)
    else
      pure (⟨0, best1.rank_name⟩ : CompareRes) : Except PyErr CompareRes) with
  | .ok res => .ok res
  | .error e => .internal e

/-- The trial-count argument the server passes on:
`request.num_simulations or 1000`, which replaces only the falsy value `0`
by the default (a negative count is truthy and passes through). -/
def num_simulations_or_default (num_simulations : Int) : Int :=
  if num_simulations = 0 then 1000 else num_simulations

/-!  Helper lemmas about the embedded operations. -/

theorem combinations_eq_nil {α : Type} :
    ∀ (k : Nat) (l : List α), l.length < k → combinations k l = [] := by
  intro k l
  induction l generalizing k with
  | nil =>
    intro h
    cases k with
    | zero => omega
    | succ k => rfl
  | cons x xs ih =>
    intro h
    cases k with
    | zero => omega
    | succ k =>
      simp only [List.length_cons] at h
      simp only [combinations]
      rw [ih k (by omega), ih (k + 1) (by omega)]
      rfl

theorem combinations_ne_nil {α : Type} :
    ∀ (k : Nat) (l : List α), k ≤ l.length → combinations k l ≠ [] := by
  intro k l
  induction l generalizing k with
  | nil =>
    intro h
    cases k with
    | zero => simp [combinations]
    | succ k => simp at h
  | cons x xs ih =>
    intro h
    cases k with
    | zero => simp [combinations]
    | succ k =>
      simp only [List.length_cons] at h
      have hne := ih k (by omega)
      simp only [combinations]
      intro hcontra
      rcases List.append_eq_nil.mp hcontra with ⟨hmap, -⟩
      exact hne (List.map_eq_nil_iff.mp hmap)

theorem subset_of_mem_combinations {α : Type} :
    ∀ (k : Nat) (l c : List α), c ∈ combinations k l → c ⊆ l := by
  intro k l
  induction l generalizing k with
  | nil =>
    intro c hc
    cases k with
    | zero => simp [combinations] at hc; simp [hc]
    | succ k => simp [combinations] at hc
  | cons x xs ih =>
    intro c hc
    cases k with
    | zero => simp [combinations] at hc; simp [hc]
    | succ k =>
      simp only [combinations, List.mem_append, List.mem_map] at hc
      rcases hc with ⟨c', hc', rfl⟩ | hc
      · intro a ha
        rcases List.mem_cons.mp ha with rfl | ha
        · exact List.mem_cons_self _ _
        · exact List.mem_cons_of_mem _ (ih k c' hc' ha)
      · intro a ha
        exact List.mem_cons_of_mem _ (ih (k + 1) c hc ha)

theorem listCmp_eq_iff (a : List Int) : ∀ b, listCmp a b = .eq ↔ a = b := by
  induction a with
  | nil => intro b; cases b <;> simp [listCmp]
  | cons x xs ih =>
    intro b
    cases b with
    | nil => simp [listCmp]
    | cons y ys =>
      simp only [listCmp]
      rcases lt_trichotomy x y with h | h | h
      · constructor
        · intro hc; rw [if_pos h] at hc; cases hc
        · intro hc; injection hc with h1 _; omega
      · subst h
        rw [if_neg (lt_irrefl x), if_neg (lt_irrefl x)]
        constructor
        · intro hc; rw [(ih ys).mp hc]
        · intro hc; injection hc with _ h2; exact (ih ys).mpr h2
      · constructor
        · intro hc; rw [if_neg (by omega), if_pos h] at hc; cases hc
        · intro hc; injection hc with h1 _; omega

theorem listCmp_swap (a : List Int) : ∀ b, listCmp b a = (listCmp a b).swap := by
  induction a with
  | nil => intro b; cases b <;> simp [listCmp, Ordering.swap]
  | cons x xs ih =>
    intro b
    cases b with
    | nil => simp [listCmp, Ordering.swap]
    | cons y ys =>
      simp only [listCmp]
      rcases lt_trichotomy x y with h | h | h
      · rw [if_neg (by omega : ¬ y < x), if_pos h, if_pos h]; rfl
      · subst h
        rw [if_neg (lt_irrefl x), if_neg (lt_irrefl x), if_neg (lt_irrefl x),
            if_neg (lt_irrefl x)]
        exact ih ys
      · rw [if_pos h, if_neg (by omega : ¬ x < y), if_pos h]; rfl

theorem rankCmp_eq_iff (a b : Int × List Int) : rankCmp a b = .eq ↔ a = b := by
  unfold rankCmp
  rcases lt_trichotomy a.1 b.1 with h | h | h
  · constructor
    · intro hc; rw [if_pos h] at hc; cases hc
    · intro hc; rw [hc] at h; omega
  · rw [if_neg (by omega), if_neg (by omega), listCmp_eq_iff]
    constructor
    · intro hc; exact Prod.ext h hc
    · intro hc; rw [hc]
  · constructor
    · intro hc; rw [if_neg (by omega), if_pos h] at hc; cases hc
    · intro hc; rw [hc] at h; omega

theorem rankCmp_swap (a b : Int × List Int) : rankCmp b a = (rankCmp a b).swap := by
  unfold rankCmp
  rcases lt_trichotomy a.1 b.1 with h | h | h
  · rw [if_neg (by omega : ¬ b.1 < a.1), if_pos h, if_pos h]; rfl
  · rw [if_neg (by omega : ¬ b.1 < a.1), if_neg (by omega : ¬ a.1 < b.1),
        if_neg (by omega : ¬ a.1 < b.1), if_neg (by omega : ¬ b.1 < a.1)]
    exact listCmp_swap a.2 b.2
  · rw [if_pos h, if_neg (by omega : ¬ a.1 < b.1), if_pos h]; rfl

theorem rankCmp_gt_sentinel (r : Int × List Int) (h : 0 ≤ r.1) :
    rankCmp r (-1, ([] : List Int)) = .gt := by
  unfold rankCmp
  rw [if_neg (by omega), if_pos (by omega)]

theorem bind_ok_eq {e a b : Type} (x : a) (f : a → Except e b) :
    (Except.ok x : Except e a) >>= f = f x := rfl

theorem bind_error_eq {e a b : Type} (x : e) (f : a → Except e b) :
    (Except.error x : Except e a) >>= f = .error x := rfl

/-!  Claim theorems. -/

/-- C1: the claim states that a wheel straight (or wheel straight flush)
must score strictly below the corresponding 6-high straight.  The code
violates this: it sorts the wheel's ranks descending with the Ace first, so
its tiebreak `[14, 5, 4, 3, 2]` compares strictly greater than the 6-high
straight flush's `[6, 5, 4, 3, 2]`. -/
theorem wheel_straight_flush_scores_above_six_high :
    hand_rank ["H2", "H3", "H4", "H5", "HA"] = .ok (8, [14, 5, 4, 3, 2]) ∧
    hand_rank ["D2", "D3", "D4", "D5", "D6"] = .ok (8, [6, 5, 4, 3, 2]) ∧
    rankCmp (8, [14, 5, 4, 3, 2]) (8, [6, 5, 4, 3, 2]) = .gt ∧
    rankCmp (8, [14, 5, 4, 3, 2]) (8, [6, 5, 4, 3, 2]) ≠ .lt := by decide

/-- C2: the claim states that the kickers after the grouped ranks are always
listed in strictly descending order and never come from an unordered
collection difference.  The code builds them as `list(set(ranks) - set(two))`;
for the pair of 2s with kickers 5, 4, 3 the CPython set iteration order
yields the ascending kicker list `[3, 4, 5]`, so the tiebreak is
`[2, 3, 4, 5]` rather than the descending `[2, 5, 4, 3]`. -/
theorem pair_kickers_not_descending :
    hand_rank ["H5", "D4", "C3", "H2", "S2"] = .ok (1, [2, 3, 4, 5]) ∧
    sortDesc [3, 4, 5] ≠ [3, 4, 5] := by decide

/-- C3: the claim states that the `HandScore` ordering is consistent with
standard poker hand rankings (the stronger hand always compares strictly
greater).  The code violates this: the 6-high straight is the stronger hand
by standard rankings, yet the wheel straight's score `(4, [14, 5, 4, 3, 2])`
compares strictly greater than the 6-high straight's `(4, [6, 5, 4, 3, 2])`. -/
theorem score_order_misranks_wheel_straight :
    hand_rank ["S2", "H3", "H4", "H5", "DA"] = .ok (4, [14, 5, 4, 3, 2]) ∧
    hand_rank ["C2", "D3", "H4", "S5", "C6"] = .ok (4, [6, 5, 4, 3, 2]) ∧
    rankCmp (4, [14, 5, 4, 3, 2]) (4, [6, 5, 4, 3, 2]) = .gt := by decide

/-- C4 counterexample: the claim states that the Best-Hand Selector fails
with a dedicated `InsufficientCards` error (and no other exception) on fewer
than 5 cards; in fact `best_hand` on 4 cards reaches `list(None)` and raises
a plain `TypeError`. -/
theorem best_hand_four_cards_type_error :
    best_hand ["HA", "HK", "HQ", "HJ"] = .error .typeError := by decide

/-- C4 (amended): for every pool of fewer than 5 cards, the `EvaluateHand`
service operation rejects the request up front with the dedicated
invalid-argument message, while `best_hand` itself, called directly, fails
with a `TypeError` from iterating `None` — not a dedicated
`InsufficientCards` error. -/
theorem evaluate_hand_under_five_cards (hole community : List String)
    (h : (hole ++ community).length < 5) :
    EvaluateHand hole community =
      .invalidArgument "Need at least 5 cards to evaluate a hand." ∧
    best_hand (hole ++ community) = .error .typeError := by
  constructor
  · unfold EvaluateHand
    rw [if_pos h]
  · unfold best_hand
    rw [combinations_eq_nil 5 _ h]
    rfl

/-- C4 witness: the 4-card pool `HA HK HQ / HJ` satisfies the hypothesis and
exhibits both behaviours. -/
theorem evaluate_hand_under_five_cards_witness :
    (["HA", "HK", "HQ"] ++ ["HJ"]).length < 5 ∧
    (EvaluateHand ["HA", "HK", "HQ"] ["HJ"] =
      .invalidArgument "Need at least 5 cards to evaluate a hand." ∧
    best_hand (["HA", "HK", "HQ"] ++ ["HJ"]) = .error .typeError) :=
  ⟨by decide, evaluate_hand_under_five_cards ["HA", "HK", "HQ"] ["HJ"] (by decide)⟩

/-- C5: the claim states that the remaining deck excludes the player's hole
cards whichever accepted token ordering the input uses.  The code filters by
raw string membership against deck tokens in SuitRank form, so a hole card
written in the RankSuit form `AH` is not excluded: the deck still contains
`HA`, which parses to the very card the player holds. -/
theorem rank_suit_hole_card_remains_in_deck :
    "HA" ∈ buildDeck ["AH", "KD"] [] ∧
    parse_card "HA" = .ok (14, 'H') ∧ parse_card "AH" = .ok (14, 'H') := by decide

/-- C6: the claim states that every non-positive trial count runs the
default 1000 trials.  The server's `request.num_simulations or 1000` only
replaces the falsy value `0`: a negative count such as `-1` is truthy,
passes through unchanged, and `range(-1)` runs zero trials, producing
`win = 0, tie = 0, lose = 1` instead of a 1000-trial estimate. -/
theorem negative_trial_count_not_defaulted :
    num_simulations_or_default (-1) = -1 ∧
    calculate_probability ["HA", "HK"] [] 2 (fun _ => []) (num_simulations_or_default (-1)) =
      .ok { win := 0, tie := 0, lose := 1 } := by
  refine ⟨by decide, ?_⟩
  norm_num [calculate_probability, runTrials, num_simulations_or_default, bind_ok_eq,
    Except.ok.injEq, ProbResult.mk.injEq]

/-- C8: the claim states that `parse` rejects every token whose characters
fall outside the rank alphabet `23456789TJQKA` and suit alphabet `HSCD`.
The membership test instead uses the string `..23456789TJQKA`, so the token
`H.` is accepted and parsed as rank 0 of hearts rather than rejected. -/
theorem parse_card_accepts_dot_rank :
    parse_card "H." = .ok (0, 'H') ∧ ¬ '.' ∈ deckRanks ∧ ¬ '.' ∈ suitsChars := by decide


theorem hand_rank_core_fst_bounds (ranks0 : List Int) (suits : List Char) :
    0 ≤ (hand_rank_core ranks0 suits).1 ∧ (hand_rank_core ranks0 suits).1 ≤ 9 := by
  simp only [hand_rank_core]
  split
  · split
    · norm_num
    · split <;> norm_num
  · split
    · next res heq =>
      split at heq
      · split at heq
        · injection heq with h; subst h; norm_num
        · split at heq
          · injection heq with h; subst h; norm_num
          · cases heq
      · cases heq
    · split
      · norm_num
      · split
        · norm_num
        · split
          · norm_num
          · split <;> norm_num

theorem mapM_parse_ok (l : List String) (h : ∀ c ∈ l, (parse_card c).isOk) :
    ∃ parsed, l.mapM parse_card = .ok parsed := by
  induction l with
  | nil => exact ⟨[], rfl⟩
  | cons x xs ih =>
    obtain ⟨px, hx⟩ : ∃ p, parse_card x = .ok p := by
      have := h x (List.mem_cons_self _ _)
      cases hpc : parse_card x with
      | ok p => exact ⟨p, rfl⟩
      | error e => rw [hpc] at this; cases this
    obtain ⟨ps, hps⟩ := ih (fun c hc => h c (List.mem_cons_of_mem _ hc))
    refine ⟨px :: ps, ?_⟩
    rw [List.mapM_cons, hx, bind_ok_eq, hps, bind_ok_eq]
    rfl

theorem hand_rank_ok (hand : List String) (h : ∀ c ∈ hand, (parse_card c).isOk) :
    ∃ r, hand_rank hand = .ok r ∧ 0 ≤ r.1 ∧ r.1 ≤ 9 := by
  obtain ⟨parsed, hp⟩ := mapM_parse_ok hand h
  refine ⟨hand_rank_core (parsed.map Prod.fst) (parsed.map Prod.snd), ?_, ?_, ?_⟩
  · unfold hand_rank
    rw [hp, bind_ok_eq]
    rfl
  · exact (hand_rank_core_fst_bounds _ _).1
  · exact (hand_rank_core_fst_bounds _ _).2

theorem bestStep_fold_ok :
    ∀ (cs : List (List String)) (acc : Option (List String) × (Int × List Int)),
      (∀ combo ∈ cs, ∃ r, hand_rank combo = .ok r ∧ 0 ≤ r.1 ∧ r.1 ≤ 9) →
      acc.1.isSome → 0 ≤ acc.2.1 → acc.2.1 ≤ 9 →
      ∃ b t, cs.foldlM bestStep acc = .ok (some b, t) ∧ 0 ≤ t.1 ∧ t.1 ≤ 9 := by
  intro cs
  induction cs with
  | nil =>
    intro acc hok hs h0 h9
    obtain ⟨b, hb⟩ := Option.isSome_iff_exists.mp hs
    refine ⟨b, acc.2, ?_, h0, h9⟩
    rw [List.foldlM_nil]
    exact congrArg Except.ok (Prod.ext hb rfl)
  | cons c cs ih =>
    intro acc hok hs h0 h9
    obtain ⟨r, hr, hr0, hr9⟩ := hok c (List.mem_cons_self _ _)
    rw [List.foldlM_cons]
    have hstep : bestStep acc c =
        .ok (if rankCmp r acc.2 = .gt then (some c, r) else acc) := by
      unfold bestStep
      rw [hr, bind_ok_eq]
      by_cases hgt : rankCmp r acc.2 = .gt
      · rw [if_pos hgt, if_pos hgt]; rfl
      · rw [if_neg hgt, if_neg hgt]; rfl
    rw [hstep, bind_ok_eq]
    by_cases hgt : rankCmp r acc.2 = .gt
    · rw [if_pos hgt]
      exact ih (some c, r) (fun combo hc => hok combo (List.mem_cons_of_mem _ hc)) rfl hr0 hr9
    · rw [if_neg hgt]
      exact ih acc (fun combo hc => hok combo (List.mem_cons_of_mem _ hc)) hs h0 h9

theorem pyListIndex_rank_names_ok (v : Int) (h0 : 0 ≤ v) (h9 : v ≤ 9) :
    ∃ s, pyListIndex rank_names v = .ok s := by
  simp only [pyListIndex]
  rw [if_neg (by omega : ¬ v < 0)]
  have hlt : v.toNat < rank_names.length := by
    simp only [rank_names, List.length_cons, List.length_nil]
    omega
  rw [List.get?_eq_get hlt]
  refine ⟨rank_names.get ⟨v.toNat, hlt⟩, ?_⟩
  show (if 0 ≤ v then Except.ok (rank_names.get ⟨v.toNat, hlt⟩)
        else Except.error PyErr.indexError) = _
  rw [if_pos h0]

theorem best_hand_ok (cards : List String) (hlen : 5 ≤ cards.length)
    (hv : ∀ c ∈ cards, (parse_card c).isOk) :
    ∃ res, best_hand cards = .ok res ∧
      res.rank_value = res.rank_tuple.1 ∧
      0 ≤ res.rank_tuple.1 ∧ res.rank_tuple.1 ≤ 9 ∧
      pyListIndex rank_names res.rank_tuple.1 = .ok res.rank_name := by
  have hcombo_ok : ∀ combo ∈ combinations 5 cards,
      ∃ r, hand_rank combo = .ok r ∧ 0 ≤ r.1 ∧ r.1 ≤ 9 :=
    fun combo hc =>
      hand_rank_ok combo (fun c hcc => hv c (subset_of_mem_combinations 5 cards combo hc hcc))
  obtain ⟨c0, cs, hcs⟩ := List.exists_cons_of_ne_nil (combinations_ne_nil 5 cards hlen)
  obtain ⟨r0, hr0, hr00, hr09⟩ := hcombo_ok c0 (by rw [hcs]; exact List.mem_cons_self _ _)
  unfold best_hand
  rw [hcs, List.foldlM_cons]
  have hstep : bestStep (none, (-1, ([] : List Int))) c0 = .ok (some c0, r0) := by
    unfold bestStep
    rw [hr0, bind_ok_eq, if_pos (rankCmp_gt_sentinel r0 hr00)]
    rfl
  rw [hstep, bind_ok_eq]
  obtain ⟨b, t, hfold, ht0, ht9⟩ := bestStep_fold_ok cs (some c0, r0)
    (fun combo hc => hcombo_ok combo (by rw [hcs]; exact List.mem_cons_of_mem _ hc)) rfl hr00 hr09
  rw [hfold, bind_ok_eq]
  obtain ⟨nm, hnm⟩ := pyListIndex_rank_names_ok t.1 ht0 ht9
  refine ⟨⟨b, t.1, nm, t⟩, ?_, rfl, ht0, ht9, hnm⟩
  dsimp only
  rw [hnm, bind_ok_eq]
  rfl

/-- C9: for every pair of card pools (each hole cards plus its own community
cards, each totalling at least 5 parseable cards), `CompareHands` returns
winner 1 iff pool 1's best `HandScore` compares strictly greater, winner 2
iff pool 2's does, and winner 0 (tie) iff the two best scores are equal,
together with the winning side's category display name (the shared category
name on a tie). -/
theorem compare_hands_winner_matches_score_order
    (h1_cards h1_comm h2_cards h2_comm : List String)
    (hv1 : ∀ c ∈ h1_cards ++ h1_comm, (parse_card c).isOk)
    (hv2 : ∀ c ∈ h2_cards ++ h2_comm, (parse_card c).isOk)
    (hl1 : 5 ≤ (h1_cards ++ h1_comm).length)
    (hl2 : 5 ≤ (h2_cards ++ h2_comm).length) :
    ∃ b1 b2 res,
      best_hand (h1_cards ++ h1_comm) = .ok b1 ∧
      best_hand (h2_cards ++ h2_comm) = .ok b2 ∧
      CompareHands h1_cards h1_comm h2_cards h2_comm = .ok res ∧
      (res.winner = 1 ↔ rankCmp b1.rank_tuple b2.rank_tuple = .gt) ∧
      (res.winner = 2 ↔ rankCmp b1.rank_tuple b2.rank_tuple = .lt) ∧
      (res.winner = 0 ↔ b1.rank_tuple = b2.rank_tuple) ∧
      (res.winner = 1 → res.winning_hand_name = b1.rank_name) ∧
      (res.winner = 2 → res.winning_hand_name = b2.rank_name) ∧
      (res.winner = 0 → res.winning_hand_name = b1.rank_name ∧
        b1.rank_name = b2.rank_name) := by
  obtain ⟨b1, hb1, _, h10, h19, hn1⟩ := best_hand_ok _ hl1 hv1
  obtain ⟨b2, hb2, _, h20, h29, hn2⟩ := best_hand_ok _ hl2 hv2
  cases hc : rankCmp b1.rank_tuple b2.rank_tuple with
  | gt =>
    have hcmp : CompareHands h1_cards h1_comm h2_cards h2_comm =
        .ok ⟨1, b1.rank_name⟩ := by
      unfold CompareHands
      rw [hb1, bind_ok_eq, hb2, bind_ok_eq, if_pos hc]
      rfl
    refine ⟨b1, b2, ⟨1, b1.rank_name⟩, hb1, hb2, hcmp, ?_, ?_, ?_, fun _ => rfl,
      ?_, ?_⟩
    · exact iff_of_true rfl hc
    · exact iff_of_false (by norm_num) (by rw [hc]; intro hco; cases hco)
    · refine iff_of_false (by norm_num) ?_
      intro he
      rw [(rankCmp_eq_iff _ _).mpr he] at hc
      cases hc
    · intro hco; norm_num at hco
    · intro hco; norm_num at hco
  | lt =>
    have hswap : rankCmp b2.rank_tuple b1.rank_tuple = .gt := by
      rw [rankCmp_swap, hc]; rfl
    have hcmp : CompareHands h1_cards h1_comm h2_cards h2_comm =
        .ok ⟨2, b2.rank_name⟩ := by
      unfold CompareHands
      rw [hb1, bind_ok_eq, hb2, bind_ok_eq, if_neg (by rw [hc]; intro hco; cases hco),
        if_pos hswap]
      rfl
    refine ⟨b1, b2, ⟨2, b2.rank_name⟩, hb1, hb2, hcmp, ?_, ?_, ?_, ?_,
      fun _ => rfl, ?_⟩
    · exact iff_of_false (by norm_num) (by rw [hc]; intro hco; cases hco)
    · exact iff_of_true rfl hc
    · refine iff_of_false (by norm_num) ?_
      intro he
      rw [(rankCmp_eq_iff _ _).mpr he] at hc
      cases hc
    · intro hco; norm_num at hco
    · intro hco; norm_num at hco
  | eq =>
    have hteq : b1.rank_tuple = b2.rank_tuple := (rankCmp_eq_iff _ _).mp hc
    have hname : b1.rank_name = b2.rank_name := by
      have h2' := hn2
      rw [← hteq] at h2'
      rw [hn1] at h2'
      injection h2'
    have hswap : rankCmp b2.rank_tuple b1.rank_tuple = .eq := by
      rw [rankCmp_swap, hc]; rfl
    have hcmp : CompareHands h1_cards h1_comm h2_cards h2_comm =
        .ok ⟨0, b1.rank_name⟩ := by
      unfold CompareHands
      rw [hb1, bind_ok_eq, hb2, bind_ok_eq, if_neg (by rw [hc]; intro hco; cases hco),
        if_neg (by rw [hswap]; intro hco; cases hco)]
      rfl
    refine ⟨b1, b2, ⟨0, b1.rank_name⟩, hb1, hb2, hcmp, ?_, ?_,
      iff_of_true rfl hteq, ?_, ?_, fun _ => ⟨rfl, hname⟩⟩
    · exact iff_of_false (by norm_num) (by rw [hc]; intro hco; cases hco)
    · exact iff_of_false (by norm_num) (by rw [hc]; intro hco; cases hco)
    · intro hco; norm_num at hco
    · intro hco; norm_num at hco

/-- C9 witness: the spec's own tie example — both pools reach the identical
best score over the shared board `SA S2 S3 S4 S5`, so the comparison is a
tie with the shared category name. -/
theorem compare_hands_winner_matches_score_order_witness :
    (∀ c ∈ ["CA", "CK"] ++ ["SA", "S2", "S3", "S4", "S5"], (parse_card c).isOk) ∧
    (∀ c ∈ ["DA", "DK"] ++ ["SA", "S2", "S3", "S4", "S5"], (parse_card c).isOk) ∧
    5 ≤ (["CA", "CK"] ++ ["SA", "S2", "S3", "S4", "S5"]).length ∧
    5 ≤ (["DA", "DK"] ++ ["SA", "S2", "S3", "S4", "S5"]).length ∧
    (∃ b1 b2 res,
      best_hand (["CA", "CK"] ++ ["SA", "S2", "S3", "S4", "S5"]) = .ok b1 ∧
      best_hand (["DA", "DK"] ++ ["SA", "S2", "S3", "S4", "S5"]) = .ok b2 ∧
      CompareHands ["CA", "CK"] ["SA", "S2", "S3", "S4", "S5"]
        ["DA", "DK"] ["SA", "S2", "S3", "S4", "S5"] = .ok res ∧
      (res.winner = 1 ↔ rankCmp b1.rank_tuple b2.rank_tuple = .gt) ∧
      (res.winner = 2 ↔ rankCmp b1.rank_tuple b2.rank_tuple = .lt) ∧
      (res.winner = 0 ↔ b1.rank_tuple = b2.rank_tuple) ∧
      (res.winner = 1 → res.winning_hand_name = b1.rank_name) ∧
      (res.winner = 2 → res.winning_hand_name = b2.rank_name) ∧
      (res.winner = 0 → res.winning_hand_name = b1.rank_name ∧
        b1.rank_name = b2.rank_name)) :=
  ⟨by decide, by decide, by decide, by decide,
   compare_hands_winner_matches_score_order
     ["CA", "CK"] ["SA", "S2", "S3", "S4", "S5"]
     ["DA", "DK"] ["SA", "S2", "S3", "S4", "S5"]
     (by decide) (by decide) (by decide) (by decide)⟩

theorem runTrials_counts_le (my comm : List String) (np : Int) (sh : Nat → List String) :
    ∀ (n : Nat) (w t : Nat), runTrials my comm np sh n = .ok (w, t) → w + t ≤ n := by
  intro n
  induction n with
  | zero =>
    intro w t h
    injection h with h
    injection h with hw ht
    omega
  | succ n ih =>
    intro w t h
    simp only [runTrials] at h
    cases hprev : runTrials my comm np sh n with
    | error e => rw [hprev, bind_error_eq] at h; cases h
    | ok p =>
      obtain ⟨w', t'⟩ := p
      have hwt' := ih w' t' hprev
      rw [hprev, bind_ok_eq] at h
      dsimp only at h
      cases htrial : runTrial my comm np (sh n) with
      | error e => rw [htrial, bind_error_eq] at h; cases h
      | ok o =>
        rw [htrial, bind_ok_eq] at h
        cases o <;> dsimp only at h <;> injection h with h <;>
          injection h with hw ht <;> omega

/-- C7: the three returned fractions of every completed simulation with a
positive trial count and at least one opponent lie in the unit interval and
sum exactly to 1; the lose fraction is computed by subtracting the win and
tie counters from the trial total, not from a separate counter. -/
theorem probability_fractions_sum_to_one
    (my_cards community_cards : List String) (num_players : Int)
    (shuffles : Nat → List String) (num_simulations : Int) (res : ProbResult)
    (hpos : 0 < num_simulations) (_hopp : 2 ≤ num_players)
    (hok : calculate_probability my_cards community_cards num_players shuffles
      num_simulations = .ok res) :
    ∃ wins ties : Nat,
      runTrials my_cards community_cards num_players shuffles num_simulations.toNat =
        .ok (wins, ties) ∧
      wins + ties ≤ num_simulations.toNat ∧
      res.win = (wins : ℚ) / (num_simulations : ℚ) ∧
      res.tie = (ties : ℚ) / (num_simulations : ℚ) ∧
      res.lose = ((num_simulations : ℚ) - (wins : ℚ) - (ties : ℚ)) / (num_simulations : ℚ) ∧
      0 ≤ res.win ∧ res.win ≤ 1 ∧ 0 ≤ res.tie ∧ res.tie ≤ 1 ∧
      0 ≤ res.lose ∧ res.lose ≤ 1 ∧
      res.win + res.tie + res.lose = 1 := by
  unfold calculate_probability at hok
  cases hrun : runTrials my_cards community_cards num_players shuffles
      num_simulations.toNat with
  | error e => rw [hrun, bind_error_eq] at hok; cases hok
  | ok p =>
    obtain ⟨w, t⟩ := p
    rw [hrun, bind_ok_eq] at hok
    dsimp only at hok
    rw [if_neg (by omega : ¬ num_simulations = 0)] at hok
    injection hok with hok
    have hwt := runTrials_counts_le my_cards community_cards num_players shuffles
      num_simulations.toNat w t hrun
    have hq : (0 : ℚ) < (num_simulations : ℚ) := by exact_mod_cast hpos
    have hcast : ((num_simulations.toNat : ℚ)) = ((num_simulations : ℚ)) := by
      have h1 : ((num_simulations.toNat : Int)) = num_simulations :=
        Int.toNat_of_nonneg hpos.le
      exact_mod_cast congrArg (fun z : Int => (z : ℚ)) h1
    have hwle : (w : ℚ) + (t : ℚ) ≤ (num_simulations : ℚ) := by
      rw [← hcast]
      exact_mod_cast hwt
    have hw0 : (0 : ℚ) ≤ (w : ℚ) := Nat.cast_nonneg w
    have ht0 : (0 : ℚ) ≤ (t : ℚ) := Nat.cast_nonneg t
    refine ⟨w, t, rfl, hwt, by rw [← hok], by rw [← hok], by rw [← hok],
      ?_, ?_, ?_, ?_, ?_, ?_, ?_⟩ <;> rw [← hok] <;> dsimp only
    · exact div_nonneg hw0 hq.le
    · rw [div_le_one hq]; linarith
    · exact div_nonneg ht0 hq.le
    · rw [div_le_one hq]; linarith
    · apply div_nonneg _ hq.le; linarith
    · rw [div_le_one hq]; linarith
    · field_simp

theorem full_deck_parse_ok : ∀ c ∈ full_deck, (parse_card c).isOk := by decide

theorem length_filter_split {α : Type} (p : α → Bool) :
    ∀ l : List α, l.length ≤ (l.filter p).length + (l.filter (fun a => ! p a)).length := by
  intro l
  induction l with
  | nil => simp
  | cons x xs ih =>
    by_cases hp : p x <;> simp [List.filter_cons, hp] <;> omega

theorem buildDeck_length_ge (my comm : List String) :
    52 ≤ (buildDeck my comm).length + (my.length + comm.length) := by
  have hsplit := length_filter_split
    (fun card => decide (¬ card ∈ my ∧ ¬ card ∈ comm)) full_deck
  have hnotp : (full_deck.filter
      (fun a => ! decide (¬ a ∈ my ∧ ¬ a ∈ comm))) ⊆ my ++ comm := by
    intro a ha
    have hmem := List.of_mem_filter ha
    simp only [Bool.not_eq_true', decide_eq_false_iff_not, not_and_or, not_not] at hmem
    rcases hmem with hmem | hmem
    · exact List.mem_append_left _ hmem
    · exact List.mem_append_right _ hmem
  have hnd : (full_deck.filter
      (fun a => ! decide (¬ a ∈ my ∧ ¬ a ∈ comm))).Nodup :=
    (List.filter_sublist _).nodup (by decide)
  have hle := (List.subperm_of_subset hnd hnotp).length_le
  have h52 : full_deck.length = 52 := by decide
  have happ : (my ++ comm).length = my.length + comm.length := List.length_append _ _
  unfold buildDeck
  omega

theorem buildDeck_parse_ok (my comm : List String) :
    ∀ c ∈ buildDeck my comm, (parse_card c).isOk :=
  fun c hc => full_deck_parse_ok c (List.mem_of_mem_filter hc)

theorem pySlice_subset {α : Type} (l : List α) (a b : Int) : pySlice l a b ⊆ l := by
  intro x hx
  simp only [pySlice] at hx
  exact List.mem_of_mem_drop (List.mem_of_mem_take hx)

theorem pySlice_zero_length {α : Type} (l : List α) (k : Int) (h0 : 0 ≤ k)
    (hk : k ≤ l.length) : (pySlice l 0 k).length = k.toNat := by
  simp only [pySlice]
  rw [if_neg (by omega : ¬ (0 : Int) < 0), if_neg (by omega : ¬ k < 0)]
  have h1 : min (0 : Int) (l.length : Int) = 0 := by omega
  have h2 : min k (l.length : Int) = k := by omega
  rw [h1, h2]
  simp only [Int.toNat_zero, List.drop_zero, List.length_take, Int.sub_zero]
  omega

theorem maxRankFold_aux_ok :
    ∀ (cs : List (List String)) (acc : Int × List Int),
      (∀ combo ∈ cs, ∃ r, hand_rank combo = .ok r ∧ 0 ≤ r.1 ∧ r.1 ≤ 9) →
      0 ≤ acc.1 →
      ∃ t, cs.foldlM maxStep acc = .ok t ∧ 0 ≤ t.1 := by
  intro cs
  induction cs with
  | nil =>
    intro acc hok h0
    refine ⟨acc, ?_, h0⟩
    rw [List.foldlM_nil]
    rfl
  | cons c cs ih =>
    intro acc hok h0
    obtain ⟨r, hr, hr0, hr9⟩ := hok c (List.mem_cons_self _ _)
    rw [List.foldlM_cons]
    have hstep : maxStep acc c = .ok (if rankCmp r acc = .gt then r else acc) := by
      unfold maxStep
      rw [hr, bind_ok_eq]
      by_cases hgt : rankCmp r acc = .gt
      · rw [if_pos hgt, if_pos hgt]; rfl
      · rw [if_neg hgt, if_neg hgt]; rfl
    rw [hstep, bind_ok_eq]
    by_cases hgt : rankCmp r acc = .gt
    · rw [if_pos hgt]
      exact ih r (fun combo hc => hok combo (List.mem_cons_of_mem _ hc)) hr0
    · rw [if_neg hgt]
      exact ih acc (fun combo hc => hok combo (List.mem_cons_of_mem _ hc)) h0

theorem maxRankFold_ok_pos (combos : List (List String))
    (hok : ∀ combo ∈ combos, ∃ r, hand_rank combo = .ok r ∧ 0 ≤ r.1 ∧ r.1 ≤ 9)
    (hne : combos ≠ []) :
    ∃ t, maxRankFold combos = .ok t ∧ 0 ≤ t.1 := by
  obtain ⟨c0, cs, rfl⟩ := List.exists_cons_of_ne_nil hne
  obtain ⟨r0, hr0, hr00, hr09⟩ := hok c0 (List.mem_cons_self _ _)
  unfold maxRankFold
  rw [List.foldlM_cons]
  have hstep : maxStep (-1, ([] : List Int)) c0 = .ok r0 := by
    unfold maxStep
    rw [hr0, bind_ok_eq, if_pos (rankCmp_gt_sentinel r0 hr00)]
    rfl
  rw [hstep, bind_ok_eq]
  exact maxRankFold_aux_ok cs r0
    (fun combo hc => hok combo (List.mem_cons_of_mem _ hc)) hr00

theorem bind_pure_eq {e a b : Type} (x : a) (f : a → Except e b) :
    (pure x : Except e a) >>= f = f x := rfl

theorem runTrial_single_player_wins (my comm deck0 : List String)
    (hv : ∀ c ∈ my ++ comm, (parse_card c).isOk)
    (hd : ∀ c ∈ deck0, (parse_card c).isOk)
    (hdl : (5 : Int) - comm.length ≤ (deck0.length : Int)) :
    runTrial my comm 1 deck0 = .ok .gt := by
  unfold runTrial
  rw [show ((1 : Int) - 1).toNat = 0 from rfl]
  rw [show dealOpponents deck0 0 0 = .ok ([], 0) from rfl, bind_ok_eq]
  dsimp only
  simp only [Nat.cast_zero, zero_add]
  have hpool_ok : ∀ c ∈ my ++ (comm ++ pySlice deck0 0 (5 - (comm.length : Int))),
      (parse_card c).isOk := by
    intro c hc
    rcases List.mem_append.mp hc with hcm | hc2
    · exact hv c (List.mem_append_left _ hcm)
    rcases List.mem_append.mp hc2 with hcc | hcs
    · exact hv c (List.mem_append_right _ hcc)
    · exact hd c (pySlice_subset deck0 _ _ hcs)
  have hlen5 : 5 ≤ (my ++ (comm ++ pySlice deck0 0 (5 - (comm.length : Int)))).length := by
    by_cases hcl : (comm.length : Int) < 5
    · have hsl := pySlice_zero_length deck0 (5 - comm.length) (by omega) (by omega)
      simp only [List.length_append]
      omega
    · simp only [List.length_append]
      omega
  obtain ⟨mr, hmr, hmr0⟩ := maxRankFold_ok_pos
    (combinations 5 (my ++ (comm ++ pySlice deck0 0 (5 - (comm.length : Int)))))
    (fun combo hcm => hand_rank_ok combo
      (fun c hcc => hpool_ok c (subset_of_mem_combinations 5 _ combo hcm hcc)))
    (combinations_ne_nil 5 _ hlen5)
  rw [hmr, bind_ok_eq, List.foldlM_nil, bind_pure_eq,
    rankCmp_gt_sentinel mr hmr0]
  rfl

/-- C10: invoking the Probability Estimator with a single player (zero
opponents) and a valid card pool makes every trial a win: the best opponent
score stays at the sentinel `(-1, [])`, the player's score always exceeds
it, and the result is win fraction 1, tie fraction 0, lose fraction 0,
rather than a failure. -/
theorem single_player_simulation_always_wins
    (my_cards community_cards : List String) (shuffles : Nat → List String)
    (num_simulations : Int)
    (hv : ∀ c ∈ my_cards ++ community_cards, (parse_card c).isOk)
    (hlen : my_cards.length + community_cards.length ≤ 47)
    (hsh : ∀ t, (shuffles t).Perm (buildDeck my_cards community_cards))
    (hpos : 0 < num_simulations) :
    calculate_probability my_cards community_cards 1 shuffles num_simulations =
      .ok { win := 1, tie := 0, lose := 0 } := by
  have htrial : ∀ t, runTrial my_cards community_cards 1 (shuffles t) = .ok .gt := by
    intro t
    apply runTrial_single_player_wins
    · exact hv
    · exact fun c hc =>
        buildDeck_parse_ok my_cards community_cards c ((hsh t).mem_iff.mp hc)
    · have h1 := (hsh t).length_eq
      have h2 := buildDeck_length_ge my_cards community_cards
      omega
  have hrun : ∀ n : Nat, runTrials my_cards community_cards 1 shuffles n = .ok (n, 0) := by
    intro n
    induction n with
    | zero => rfl
    | succ n ih =>
      simp only [runTrials]
      rw [ih, bind_ok_eq]
      dsimp only
      rw [htrial n, bind_ok_eq]
  unfold calculate_probability
  rw [hrun num_simulations.toNat, bind_ok_eq]
  dsimp only
  rw [if_neg (by omega : ¬ num_simulations = 0)]
  have hqpos : (0 : ℚ) < (num_simulations : ℚ) := by exact_mod_cast hpos
  have hcast : ((num_simulations.toNat : ℚ)) = ((num_simulations : ℚ)) := by
    have h1 : ((num_simulations.toNat : Int)) = num_simulations :=
      Int.toNat_of_nonneg hpos.le
    exact_mod_cast congrArg (fun z : Int => (z : ℚ)) h1
  simp only [Except.ok.injEq, ProbResult.mk.injEq, Nat.cast_zero]
  refine ⟨?_, ?_, ?_⟩
  · rw [hcast]
    exact div_self hqpos.ne'
  · exact zero_div _
  · rw [hcast]
    rw [sub_zero, sub_self, zero_div]

/-- C10 witness: two hole cards and a full board of five known community
cards, one player, one trial. -/
theorem single_player_simulation_always_wins_witness :
    (∀ c ∈ ["HA", "HK"] ++ ["H2", "H3", "H4", "H5", "H6"], (parse_card c).isOk) ∧
    ["HA", "HK"].length + ["H2", "H3", "H4", "H5", "H6"].length ≤ 47 ∧
    (0 : Int) < 1 ∧
    calculate_probability ["HA", "HK"] ["H2", "H3", "H4", "H5", "H6"] 1
      (fun _ => buildDeck ["HA", "HK"] ["H2", "H3", "H4", "H5", "H6"]) 1 =
      .ok { win := 1, tie := 0, lose := 0 } :=
  ⟨by decide, by decide, by norm_num,
   single_player_simulation_always_wins ["HA", "HK"] ["H2", "H3", "H4", "H5", "H6"]
     (fun _ => buildDeck ["HA", "HK"] ["H2", "H3", "H4", "H5", "H6"]) 1
     (by decide) (by decide) (fun t => List.Perm.refl _) (by norm_num)⟩

/-- C7 witness: one trial, two players, a fixed shuffled deck; this run
loses (the opponent makes a higher straight flush), so the fractions are
0, 0 and 1. -/
theorem probability_fractions_sum_to_one_witness :
    (0 : Int) < 1 ∧ (2 : Int) ≤ 2 ∧
    calculate_probability [] ["H2", "H3", "H4", "H5", "H6"] 2
      (fun _ => buildDeck [] ["H2", "H3", "H4", "H5", "H6"]) 1 =
      .ok { win := 0, tie := 0, lose := 1 } ∧
    (∃ wins ties : Nat,
      runTrials [] ["H2", "H3", "H4", "H5", "H6"] 2
        (fun _ => buildDeck [] ["H2", "H3", "H4", "H5", "H6"]) (1 : Int).toNat =
        .ok (wins, ties) ∧
      wins + ties ≤ (1 : Int).toNat ∧
      ({ win := 0, tie := 0, lose := 1 } : ProbResult).win =
        (wins : ℚ) / ((1 : Int) : ℚ) ∧
      ({ win := 0, tie := 0, lose := 1 } : ProbResult).tie =
        (ties : ℚ) / ((1 : Int) : ℚ) ∧
      ({ win := 0, tie := 0, lose := 1 } : ProbResult).lose =
        (((1 : Int) : ℚ) - (wins : ℚ) - (ties : ℚ)) / ((1 : Int) : ℚ) ∧
      0 ≤ ({ win := 0, tie := 0, lose := 1 } : ProbResult).win ∧
      ({ win := 0, tie := 0, lose := 1 } : ProbResult).win ≤ 1 ∧
      0 ≤ ({ win := 0, tie := 0, lose := 1 } : ProbResult).tie ∧
      ({ win := 0, tie := 0, lose := 1 } : ProbResult).tie ≤ 1 ∧
      0 ≤ ({ win := 0, tie := 0, lose := 1 } : ProbResult).lose ∧
      ({ win := 0, tie := 0, lose := 1 } : ProbResult).lose ≤ 1 ∧
      ({ win := 0, tie := 0, lose := 1 } : ProbResult).win +
        ({ win := 0, tie := 0, lose := 1 } : ProbResult).tie +
        ({ win := 0, tie := 0, lose := 1 } : ProbResult).lose = 1) := by
  have hrun : runTrials [] ["H2", "H3", "H4", "H5", "H6"] 2
      (fun _ => buildDeck [] ["H2", "H3", "H4", "H5", "H6"]) (1 : Int).toNat =
      .ok (0, 0) := by decide
  have hcalc : calculate_probability [] ["H2", "H3", "H4", "H5", "H6"] 2
      (fun _ => buildDeck [] ["H2", "H3", "H4", "H5", "H6"]) 1 =
      .ok { win := 0, tie := 0, lose := 1 } := by
    unfold calculate_probability
    rw [hrun, bind_ok_eq]
    norm_num [Except.ok.injEq, ProbResult.mk.injEq]
  exact ⟨by norm_num, le_refl _, hcalc,
    probability_fractions_sum_to_one [] ["H2", "H3", "H4", "H5", "H6"] 2
      (fun _ => buildDeck [] ["H2", "H3", "H4", "H5", "H6"]) 1
      { win := 0, tie := 0, lose := 1 } (by norm_num) (le_refl _) hcalc⟩
